import Mathlib

/-!
Verification development for the ldhcpd address-lease core.

The Go sources embedded here are `dhcpd/allocator.go` and the configuration
file of package `dhcpd` (Range, Lease, Config, validateAndFix).  The Lease
Store (Go package `db`) is not part of the analysed sources, so its
operations are modelled from the specification (section 4.2); every such
definition is marked in its doc comment.

Machine representation: IPv4 addresses and MAC addresses are natural
numbers (an IPv4 address is the big-endian value of its four bytes, below
2^32); instants and durations are natural numbers (nanoseconds); the Go
`time.Time.Before` relation becomes `<` on naturals.
-/

namespace Ldhcpd

/-- Number of IPv4 addresses; `dhcp4.IPAdd` arithmetic is modulo this. -/
def ipMod : Nat := 4294967296

/-- Embeds `dhcp4.IPAdd`: 32-bit wrapping addition of a signed offset. -/
def ipAdd (ip : Nat) (d : Int) : Nat := (((ip : Int) + d) % (ipMod : Int)).toNat

/-- Embeds `dhcp4.IPInRange`: `first <= ip <= last` (byte-wise comparison of
4-byte addresses agrees with numeric comparison). -/
def ipInRange (first last ip : Nat) : Bool :=
  decide (first ≤ ip) && decide (ip ≤ last)

/-- Splits a character list at every dot, as Go splits a dotted-decimal
address into fields. -/
def splitDots : List Char → List (List Char)
  | [] => [[]]
  | c :: cs =>
    if c = '.' then [] :: splitDots cs
    else
      match splitDots cs with
      | [] => [[c]]
      | g :: gs => (c :: g) :: gs

/-- Numeric value of a digit list. -/
def octVal (cs : List Char) : Nat := cs.foldl (fun acc c => acc * 10 + (c.toNat - 48)) 0

/-- Embeds one dotted-decimal field of Go `net.ParseIP`: a nonempty digit
string without leading zeros whose value is at most 255. -/
def parseOctet : List Char → Option Nat
  | [] => none
  | ['0'] => some 0
  | '0' :: _ :: _ => none
  | cs =>
    if cs.all Char.isDigit then
      if octVal cs ≤ 255 then some (octVal cs) else none
    else none

/-- Embeds `net.ParseIP(s).To4()` followed by the 4-byte length check, for
dotted-quad input.  (Go additionally accepts textual IPv6 forms whose `To4`
is 4 bytes; no analysed code path depends on those, and they are omitted.) -/
def parseIPv4 (s : String) : Option Nat :=
  match splitDots s.data with
  | [a, b, c, d] =>
    match parseOctet a, parseOctet b, parseOctet c, parseOctet d with
    | some x, some y, some z, some w => some (((x * 256 + y) * 256 + z) * 256 + w)
    | _, _, _, _ => none
  | _ => none

/-- Embeds the `Range` configuration struct (dotted-decimal endpoint strings). -/
structure Range where
  From : String
  To : String
deriving DecidableEq

/-- Embeds `Range.Dimensions`: the parsed 4-byte endpoints, `none` standing
for Go's nil `net.IP`. -/
def Range.dimensions (r : Range) : Option Nat × Option Nat :=
  (parseIPv4 r.From, parseIPv4 r.To)

/-- Embeds `Range.validate`: both endpoints must be 4-byte addresses and the
range must not be reversed (`IPLess(to, from)` rejected).  `true` stands for
a nil error. -/
def Range.validate (r : Range) : Bool :=
  match parseIPv4 r.From, parseIPv4 r.To with
  | some f, some t => decide (f ≤ t)
  | _, _ => false

/-- Embeds the `Lease` configuration struct (duration and grace period). -/
structure Lease where
  duration : Nat
  gracePeriod : Nat
deriving DecidableEq

/-- Embeds the `Certificate` configuration struct. -/
structure Certificate where
  caFile : String
  certFile : String
  keyFile : String
deriving DecidableEq

/-- Embeds the `Config` struct of package dhcpd. -/
structure Config where
  dnsServers : List String
  gateway : String
  dbFile : String
  dynamicRange : Range
  lease : Lease
  certificate : Certificate
deriving DecidableEq

def defaultDBFile : String := "ldhcpd.db"

/-- Twenty-four hours in nanoseconds, the Go `defaultLeaseDuration`. -/
def defaultLeaseDuration : Nat := 86400000000000

def defaultCAFile : String := "/etc/ldhcpd/rootCA.pem"

def defaultCertFile : String := "/etc/ldhcpd/server.pem"

def defaultKeyFile : String := "/etc/ldhcpd/server.key"

/-- Embeds `Config.GatewayIP`: `net.ParseIP(c.Gateway).To4()`. -/
def Config.gatewayIP (c : Config) : Option Nat := parseIPv4 c.gateway

/-- Embeds `Config.DNS`: one entry is appended per configured server even
when parsing fails (Go appends the nil `net.IP`), so the returned list
always has the same length as the server list. -/
def Config.DNS (c : Config) : List (Option Nat) := c.dnsServers.map parseIPv4

/-- Embeds `Config.validateAndFix`.  `none` stands for a non-nil error;
`some` carries the configuration after defaulting of DBFile, certificate
paths and lease duration. -/
def Config.validateAndFix (c : Config) : Option Config :=
  if c.dynamicRange.validate = false then none
  else if (c.gatewayIP).isNone then none
  else
    let c1 := if c.dnsServers.length = 0 then { c with dnsServers := [] } else c
    if c1.dnsServers.length > 0 && c1.DNS.length = 0 then none
    else
      let c2 := if c1.dbFile = "" then { c1 with dbFile := defaultDBFile } else c1
      let c3 :=
        if c2.certificate.certFile = "" then
          { c2 with certificate := { c2.certificate with certFile := defaultCertFile } }
        else c2
      let c4 :=
        if c3.certificate.keyFile = "" then
          { c3 with certificate := { c3.certificate with keyFile := defaultKeyFile } }
        else c3
      let c5 :=
        if c4.certificate.caFile = "" then
          { c4 with certificate := { c4.certificate with caFile := defaultCAFile } }
        else c4
      let c6 :=
        if c5.lease.duration = 0 then
          { c5 with lease := { c5.lease with duration := defaultLeaseDuration } }
        else c5
      some c6

/-- Modelled from the spec: error kinds of the Lease Store (section 4.2 and
section 7): a unique-IP conflict, a durability fault, and not-found. -/
inductive StoreErr where
  | conflict
  | storeFault
  | notFound
deriving DecidableEq

/-- Modelled from the spec: one persisted lease row
(mac key, unique ip, reserved, persistent, lease end, grace end). -/
structure LeaseRecord where
  mac : Nat
  ip : Nat
  reserved : Bool
  persistent : Bool
  leaseEnd : Nat
  leaseGraceEnd : Nat
deriving DecidableEq

/-- Modelled from the spec: the Lease Store state.  `leases` are the
non-purged rows.  `brokenIPs` and `purgeBroken` model the store's ability to
fail with a non-conflict durability fault (`StoreErr.storeFault`): inserts
of an address in `brokenIPs` fault, and every purge faults while
`purgeBroken` is set.  The fault-free store behaviour of section 4.2 is the
case `brokenIPs = []` and `purgeBroken = false`. -/
structure DB where
  leases : List LeaseRecord
  brokenIPs : List Nat
  purgeBroken : Bool
deriving DecidableEq

/-- Modelled from the spec: `GetLease` point lookup by mac; `none` is the
NotFound result. -/
def DB.getLease (db : DB) (mac : Nat) : Option LeaseRecord :=
  db.leases.find? (fun l => l.mac == mac)

/-- Modelled from the spec: `SetLease` creates or overwrites the row keyed
by `mac`, failing with a conflict when `ip` is already bound to a different
mac by a non-purged lease, and with a durability fault when the store is
broken for that address. -/
def DB.setLease (db : DB) (mac ip : Nat) (reserved persistent : Bool)
    (leaseEnd graceEnd : Nat) : Except StoreErr DB :=
  if db.brokenIPs.contains ip then .error .storeFault
  else if db.leases.any (fun l => l.ip == ip && l.mac != mac) then .error .conflict
  else .ok { db with
    leases := db.leases.filter (fun l => l.mac != mac) ++
      [⟨mac, ip, reserved, persistent, leaseEnd, graceEnd⟩] }

/-- Modelled from the spec: `RenewLease` updates the timestamps of the
existing row for `mac` in place and returns the updated row; it fails when
the mac is unknown. -/
def DB.renewLease (db : DB) (mac leaseEnd graceEnd : Nat) :
    Except StoreErr (LeaseRecord × DB) :=
  match db.leases.find? (fun l => l.mac == mac) with
  | none => .error .notFound
  | some l =>
    let l2 : LeaseRecord := { l with leaseEnd := leaseEnd, leaseGraceEnd := graceEnd }
    .ok (l2, { db with leases := db.leases.map (fun x => if x.mac == mac then l2 else x) })

/-- Modelled from the spec: `PurgeLeases` returns a count and an error
(section 4.2); on success it removes every non-persistent row whose lease
end (aggressive) or grace end (normal) has passed and returns how many rows
were removed, and on a durability fault it fails with a store error and
changes nothing. -/
def DB.purgeLeases (db : DB) (aggressive : Bool) (now : Nat) :
    Except StoreErr (Nat × DB) :=
  if db.purgeBroken then .error .storeFault
  else
    let kept := db.leases.filter (fun l =>
      !(!l.persistent && (if aggressive then decide (l.leaseEnd < now)
                          else decide (l.leaseGraceEnd < now))))
    .ok (db.leases.length - kept.length, { db with leases := kept })

/-- The Store-enforced uniqueness invariant: no two non-purged leases of
distinct macs share an IP address. -/
def DB.uniqueIPs (db : DB) : Prop :=
  ∀ l1 ∈ db.leases, ∀ l2 ∈ db.leases, l1.ip = l2.ip → l1.mac = l2.mac

instance (db : DB) : Decidable db.uniqueIPs := by
  unfold DB.uniqueIPs; infer_instance

/-- Errors of `Allocator.Allocate`.  `renewFailed` and `purgeFailed` are the
wrapped store errors of the renewal path (allocator.go line 51) and of the
scan's wrap handling (allocator.go lines 86 to 89, the error wrapped as
trying to clean up the lease table).  `fuelOut` is an artifact of the
fuelled embedding of the scan loop and is unreachable with the canonical
fuel except for degenerate full-address-space ranges, where the Go loop
itself does not terminate.  `invalidRange` marks the branch where
`Range.Dimensions` yields nil endpoints; the specification (section 6)
guarantees the Allocator only receives validated configuration, so that
branch is never exercised. -/
inductive AllocErr where
  | rangeExhausted
  | renewFailed (e : StoreErr)
  | purgeFailed (e : StoreErr)
  | fuelOut
  | invalidRange
deriving DecidableEq

/-- Trace event of the scan loop: the candidate wrapped past the range end;
`purged` tells whether this wrap ran the aggressive purge. -/
inductive ScanEvent where
  | wrapped (purged : Bool)
deriving DecidableEq

/-- Embeds the `Allocator` struct: the configuration and the scan cursor
(`lastIP`).  The store handle is passed explicitly to each operation, and
the cursor mutex serialises the scan, which the sequential embedding makes
implicit. -/
structure Allocator where
  config : Config
  lastIP : Nat
deriving DecidableEq

deriving instance DecidableEq for Except

/-- Result of one run of the scan loop. -/
structure ScanResult where
  result : Except AllocErr Nat
  lastIP : Nat
  db : DB
  events : List ScanEvent
deriving DecidableEq

/-- Canonical fuel for the scan loop: the loop performs at most three wrap
iterations and at most one full pass of the range between wraps. -/
def scanFuel (first last : Nat) : Nat := 3 * (last + 1 - first) + 4

/-- Embeds the scan loop of `Allocator.Allocate` (allocator.go lines 76 to
104).  Each iteration computes the next candidate `lastIP + 1`; an
out-of-range candidate wraps to `first`; at the second wrap one aggressive
purge runs first, and a failing purge aborts the call with a wrapped store
error (lines 86 to 89); a third wrap returns `ErrRangeExhausted`; the
chosen candidate is inserted via `SetLease` with reserved set and persistent
clear, and any insert error advances to the next candidate. -/
def scanLoop (first last mac leaseEnd graceEnd now : Nat) :
    Nat → Nat → Bool → Bool → DB → List ScanEvent → ScanResult
  | 0, lastIP, _, _, db, evs => ⟨.error .fuelOut, lastIP, db, evs⟩
  | fuel + 1, lastIP, ff, cg, db, evs =>
    let ip := ipAdd lastIP 1
    if ipInRange first last ip then
      match db.setLease mac ip true false leaseEnd graceEnd with
      | .ok db2 => ⟨.ok ip, ip, db2, evs⟩
      | .error _ => scanLoop first last mac leaseEnd graceEnd now fuel ip ff cg db evs
    else if ff then
      if cg then ⟨.error .rangeExhausted, lastIP, db, evs⟩
      else
        match db.purgeLeases true now with
        | .error e => ⟨.error (.purgeFailed e), lastIP, db, evs⟩
        | .ok (_, db1) =>
          let evs1 := evs ++ [ScanEvent.wrapped true]
          match db1.setLease mac first true false leaseEnd graceEnd with
          | .ok db2 => ⟨.ok first, first, db2, evs1⟩
          | .error _ =>
            scanLoop first last mac leaseEnd graceEnd now fuel first true true db1 evs1
    else
      let evs1 := evs ++ [ScanEvent.wrapped false]
      match db.setLease mac first true false leaseEnd graceEnd with
      | .ok db2 => ⟨.ok first, first, db2, evs1⟩
      | .error _ =>
        scanLoop first last mac leaseEnd graceEnd now fuel first true cg db evs1

/-- Result of `Allocator.Allocate`: the Go return value, the allocator with
its updated cursor, the store after the call, and the wrap trace of the
scan loop (empty when the scan was not entered). -/
structure AllocResult where
  result : Except AllocErr Nat
  alloc : Allocator
  db : DB
  events : List ScanEvent
deriving DecidableEq

/-- Embeds `Allocator.Allocate` (allocator.go lines 42 to 105): existing
leases are returned (renewed when the renew flag finds an expired lease or
the lease is persistent), then an in-range preferred address is attempted,
then the cursor scan runs. -/
def Allocator.allocate (a : Allocator) (db : DB) (now mac : Nat) (renew : Bool)
    (preferred : Option Nat) : AllocResult :=
  match db.getLease mac with
  | some l =>
    if (renew && (decide (l.leaseEnd < now) || decide (l.leaseGraceEnd < now))) || l.persistent then
      match db.renewLease mac (now + a.config.lease.duration)
          (now + a.config.lease.duration + a.config.lease.gracePeriod) with
      | .ok (l2, db2) => ⟨.ok l2.ip, a, db2, []⟩
      | .error e => ⟨.error (.renewFailed e), a, db, []⟩
    else ⟨.ok l.ip, a, db, []⟩
  | none =>
    match a.config.dynamicRange.dimensions with
    | (some first, some last) =>
      let leaseEnd := now + a.config.lease.duration
      let graceEnd := leaseEnd + a.config.lease.gracePeriod
      let scanFrom : DB → AllocResult := fun db0 =>
        let r := scanLoop first last mac leaseEnd graceEnd now
          (scanFuel first last) a.lastIP false false db0 []
        ⟨r.result, { a with lastIP := r.lastIP }, r.db, r.events⟩
      match preferred with
      | some p =>
        if ipInRange first last p then
          match db.setLease mac p true false leaseEnd graceEnd with
          | .ok db2 => ⟨.ok p, a, db2, []⟩
          | .error _ => scanFrom db
        else scanFrom db
      | none => scanFrom db
    | _ => ⟨.error .invalidRange, a, db, []⟩

/-- Embeds `NewAllocator` (allocator.go lines 27 to 37).  The outer `none`
models the runtime panic of `dhcp4.IPAdd(nil, -1)` reached when the seed is
nil and the range's From endpoint does not parse to a 4-byte address; in
every other case the function returns, and the inner `Option String`
(the Go error result) is literally always nil. -/
def newAllocator (c : Config) (initial : Option Nat) :
    Option (Allocator × Option String) :=
  match initial with
  | some i => some (⟨c, ipAdd i (-1)⟩, none)
  | none =>
    match parseIPv4 c.dynamicRange.From with
    | some i => some (⟨c, ipAdd i (-1)⟩, none)
    | none => none

/-- Arguments of one `Allocate` call. -/
structure CallSpec where
  now : Nat
  mac : Nat
  renew : Bool
  preferred : Option Nat

/-- Final state and results of a sequence of `Allocate` calls. -/
structure RunResult where
  alloc : Allocator
  db : DB
  results : List (Except AllocErr Nat)

/-- Runs a sequence of `Allocate` calls against one allocator and store. -/
def runAllocs : Allocator → DB → List CallSpec → RunResult
  | a, db, [] => ⟨a, db, []⟩
  | a, db, cl :: cls =>
    let r := a.allocate db cl.now cl.mac cl.renew cl.preferred
    let rest := runAllocs r.alloc r.db cls
    ⟨rest.alloc, rest.db, r.result :: rest.results⟩

/-! ## Arithmetic and list helper lemmas -/

theorem ipAdd_one {ip : Nat} (h : ip + 1 < ipMod) : ipAdd ip 1 = ip + 1 := by
  unfold ipAdd
  rw [Int.emod_eq_of_lt (by omega) (by unfold ipMod at *; omega)]
  omega

theorem ipAdd_neg_one {ip : Nat} (h1 : 1 ≤ ip) (h2 : ip < ipMod) : ipAdd ip (-1) = ip - 1 := by
  unfold ipAdd
  rw [Int.emod_eq_of_lt (by omega) (by unfold ipMod at *; omega)]
  omega

theorem scanFuel_succ (first last : Nat) :
    scanFuel first last = 3 * (last + 1 - first) + 3 + 1 := rfl

theorem find?_append_left_none {α : Type} {p : α → Bool} {l1 l2 : List α}
    (h : ∀ x ∈ l1, p x = false) : (l1 ++ l2).find? p = l2.find? p := by
  induction l1 with
  | nil => rfl
  | cons a l ih =>
    have ha : p a = false := h a (List.mem_cons_self a l)
    simp only [List.cons_append, List.find?, ha]
    exact ih (fun x hx => h x (List.mem_cons_of_mem a hx))

/-! ## Theorems about the embedded program -/

/-- C8: for an existing non-persistent lease whose expiry has not passed,
an `Allocate(mac, renew=false, nil)` call returns the lease's IP and leaves
the allocator and the store (timestamps included) completely unchanged, so
repeated such calls keep returning the same address with no store write. -/
theorem allocate_no_write_before_expiry (a : Allocator) (db : DB) (now mac : Nat)
    (l : LeaseRecord) (h : db.getLease mac = some l) (hp : l.persistent = false)
    (he : now ≤ l.leaseEnd) :
    a.allocate db now mac false none = ⟨.ok l.ip, a, db, []⟩ := by
  simp [Allocator.allocate, h, hp]

/-- Witness for C8 at a concrete store. -/
theorem allocate_no_write_before_expiry_witness :
    (⟨⟨[], "10.0.20.1", "d", ⟨"0.0.0.60", "0.0.0.61"⟩, ⟨100, 7⟩, ⟨"a", "b", "c"⟩⟩, 60⟩ :
        Allocator).allocate ⟨[⟨9, 77, false, false, 100, 107⟩], [], false⟩ 10 9 false none =
      ⟨.ok 77, ⟨⟨[], "10.0.20.1", "d", ⟨"0.0.0.60", "0.0.0.61"⟩, ⟨100, 7⟩, ⟨"a", "b", "c"⟩⟩, 60⟩,
        ⟨[⟨9, 77, false, false, 100, 107⟩], [], false⟩, []⟩ :=
  allocate_no_write_before_expiry _ _ 10 9 ⟨9, 77, false, false, 100, 107⟩
    (by decide) (by decide) (by decide)

/-- C3: when a lease for the mac exists, `Allocate` renews it (lease end
`now + duration`, grace end `lease end + grace`, record updated in place)
exactly when the renew flag is set and one of the two expiry timestamps has
passed, or the lease is persistent; in all cases it returns the lease's IP.
Persistent leases are therefore refreshed on every call. -/
theorem allocate_existing_renew_iff (a : Allocator) (db : DB) (now mac : Nat)
    (renew : Bool) (preferred : Option Nat) (l : LeaseRecord)
    (h : db.getLease mac = some l) :
    a.allocate db now mac renew preferred =
      if (renew && (decide (l.leaseEnd < now) || decide (l.leaseGraceEnd < now)))
          || l.persistent then
        ⟨.ok l.ip, a,
          { db with leases := db.leases.map (fun x => if x.mac == mac then
              { l with leaseEnd := now + a.config.lease.duration,
                       leaseGraceEnd := now + a.config.lease.duration +
                         a.config.lease.gracePeriod }
              else x) }, []⟩
      else ⟨.ok l.ip, a, db, []⟩ := by
  have hfind : db.leases.find? (fun x => x.mac == mac) = some l := h
  simp only [Allocator.allocate, h, DB.renewLease, hfind]

/-- Witness for C3 at a concrete persistent lease (renew flag clear). -/
theorem allocate_existing_renew_iff_witness :
    (⟨⟨[], "10.0.20.1", "d", ⟨"0.0.0.60", "0.0.0.61"⟩, ⟨100, 7⟩, ⟨"a", "b", "c"⟩⟩, 0⟩ :
        Allocator).allocate ⟨[⟨9, 1234, false, true, 0, 0⟩], [], false⟩ 10 9 false none =
      ⟨.ok 1234, ⟨⟨[], "10.0.20.1", "d", ⟨"0.0.0.60", "0.0.0.61"⟩, ⟨100, 7⟩, ⟨"a", "b", "c"⟩⟩, 0⟩,
        ⟨[⟨9, 1234, false, true, 110, 117⟩], [], false⟩, []⟩ := by
  have h := allocate_existing_renew_iff
    (⟨⟨[], "10.0.20.1", "d", ⟨"0.0.0.60", "0.0.0.61"⟩, ⟨100, 7⟩, ⟨"a", "b", "c"⟩⟩, 0⟩ : Allocator)
    ⟨[⟨9, 1234, false, true, 0, 0⟩], [], false⟩ 10 9 false none
    ⟨9, 1234, false, true, 0, 0⟩ (by decide)
  rw [h]; decide

/-- C7: on a freshly constructed allocator (nil initial IP, so the cursor is
seeded one below the range's lower bound) with an empty store, the first
`Allocate` call for any MAC without a preferred IP returns exactly the
range's lower bound. -/
theorem fresh_allocator_first_call (c : Config) (first last now mac : Nat) (renew : Bool)
    (a : Allocator) (e : Option String)
    (hnew : newAllocator c none = some (a, e))
    (hfrom : parseIPv4 c.dynamicRange.From = some first)
    (hto : parseIPv4 c.dynamicRange.To = some last)
    (h1 : 1 ≤ first) (h2 : first ≤ last) (h3 : last < ipMod) :
    (a.allocate ⟨[], [], false⟩ now mac renew none).result = .ok first := by
  have ha : a = ⟨c, ipAdd first (-1)⟩ := by
    simp only [newAllocator, hfrom, Option.some.injEq, Prod.mk.injEq] at hnew
    rw [← hnew.1]
  subst ha
  have hdim2 : c.dynamicRange.dimensions = (some first, some last) := by
    unfold Range.dimensions
    rw [hfrom, hto]
  have hcand : ipAdd (ipAdd first (-1)) 1 = first := by
    rw [ipAdd_neg_one h1 (by omega), ipAdd_one (by omega)]
    omega
  simp only [Allocator.allocate, DB.getLease, List.find?, hdim2, scanFuel_succ, scanLoop,
    hcand, DB.setLease]
  have hin : ipInRange first last first = true := by
    simp [ipInRange, h2]
  simp [hin]

/-- Witness for C7 over the range 0.0.0.60 to 0.0.0.61. -/
theorem fresh_allocator_first_call_witness :
    ((⟨⟨[], "10.0.20.1", "d", ⟨"0.0.0.60", "0.0.0.61"⟩, ⟨100, 7⟩, ⟨"a", "b", "c"⟩⟩,
        ipAdd 60 (-1)⟩ : Allocator).allocate ⟨[], [], false⟩ 10 7 false none).result = .ok 60 :=
  fresh_allocator_first_call
    ⟨[], "10.0.20.1", "d", ⟨"0.0.0.60", "0.0.0.61"⟩, ⟨100, 7⟩, ⟨"a", "b", "c"⟩⟩
    60 61 10 7 false _ none (by decide) (by decide) (by decide)
    (by decide) (by decide) (by decide)

/-- C4: with no existing lease and a preferred IP inside the range,
`Allocate` attempts a reserved, non-persistent lease with fresh expiry
timestamps binding the mac to the preferred IP; on store success it returns
the preferred IP immediately, on store rejection it does not fail but
behaves exactly as a call without a preferred IP (sequential scan), and a
preferred IP outside the range is ignored the same way. -/
theorem allocate_preferred_paths (a : Allocator) (db : DB) (now mac : Nat) (renew : Bool)
    (p first last : Nat)
    (hnone : db.getLease mac = none)
    (hdim : a.config.dynamicRange.dimensions = (some first, some last)) :
    (ipInRange first last p = true →
      (∀ db2, db.setLease mac p true false (now + a.config.lease.duration)
          (now + a.config.lease.duration + a.config.lease.gracePeriod) = .ok db2 →
        a.allocate db now mac renew (some p) = ⟨.ok p, a, db2, []⟩) ∧
      (∀ e, db.setLease mac p true false (now + a.config.lease.duration)
          (now + a.config.lease.duration + a.config.lease.gracePeriod) = .error e →
        a.allocate db now mac renew (some p) = a.allocate db now mac renew none)) ∧
    (ipInRange first last p = false →
      a.allocate db now mac renew (some p) = a.allocate db now mac renew none) := by
  refine ⟨fun hin => ⟨fun db2 hs => ?_, fun e hs => ?_⟩, fun hout => ?_⟩
  · simp only [Allocator.allocate, hnone, hdim, hin, hs]; simp
  · simp only [Allocator.allocate, hnone, hdim, hin, hs]; simp
  · simp only [Allocator.allocate, hnone, hdim, hout, Bool.false_eq_true, if_false]

/-- Witness for C4: a free in-range preferred IP is granted directly. -/
theorem allocate_preferred_paths_witness :
    (⟨⟨[], "10.0.20.1", "d", ⟨"0.0.0.60", "0.0.0.61"⟩, ⟨100, 7⟩, ⟨"a", "b", "c"⟩⟩, 60⟩ :
        Allocator).allocate ⟨[], [], false⟩ 10 3 false (some 61) =
      ⟨.ok 61, ⟨⟨[], "10.0.20.1", "d", ⟨"0.0.0.60", "0.0.0.61"⟩, ⟨100, 7⟩, ⟨"a", "b", "c"⟩⟩, 60⟩,
        ⟨[⟨3, 61, true, false, 110, 117⟩], [], false⟩, []⟩ :=
  ((allocate_preferred_paths _ _ 10 3 false 61 60 61 (by decide) (by decide)).1
    (by decide)).1 _ (by decide)

/-- C6 (code bug): `validateAndFix` accepts a configuration whose DNS entry
does not parse as a 4-byte address, because `Config.DNS` appends one element
per server even when parsing fails, so the guard comparing the two lengths
can never fire.  The concrete configuration below has a valid range and
gateway, a DNS list whose single entry fails to parse (`DNS = [none]`), and
is accepted, contradicting the required validation rule. -/
theorem validate_accepts_invalid_dns :
    ((⟨["notanip"], "10.0.20.1", "test.db", ⟨"10.0.20.50", "10.0.20.100"⟩, ⟨100, 0⟩,
        ⟨"a", "b", "c"⟩⟩ : Config).validateAndFix).isSome = true ∧
    parseIPv4 "notanip" = none ∧
    (⟨["notanip"], "10.0.20.1", "test.db", ⟨"10.0.20.50", "10.0.20.100"⟩, ⟨100, 0⟩,
        ⟨"a", "b", "c"⟩⟩ : Config).DNS = [none] := by decide

/-- Counterexample to C10 as stated: with a nil initial IP and a From
endpoint that does not parse, `NewAllocator` does not return an allocator at
all (the embedded `none` is the Go runtime panic in `IPAdd(nil, -1)`). -/
theorem newAllocator_nil_from_cex :
    newAllocator ⟨[], "10.0.20.1", "d", ⟨"x", "10.0.20.100"⟩, ⟨100, 0⟩, ⟨"a", "b", "c"⟩⟩
      none = none := by decide

/-- C10 amended: `NewAllocator`'s error result is literally always nil —
whenever the function returns, it returns an allocator and no error; it
does return whenever the initial IP is non-nil or the range's From endpoint
parses as a 4-byte address (otherwise it panics instead of returning). -/
theorem newAllocator_error_always_nil (c : Config) (initial : Option Nat) :
    (∀ p, newAllocator c initial = some p → p.2 = none) ∧
    (initial.isSome = true ∨ (parseIPv4 c.dynamicRange.From).isSome = true →
      (newAllocator c initial).isSome = true) := by
  constructor
  · intro p hp
    cases initial with
    | some i => simp only [newAllocator] at hp; cases hp; rfl
    | none =>
      cases hf : parseIPv4 c.dynamicRange.From with
      | some i => simp only [newAllocator, hf] at hp; cases hp; rfl
      | none => simp only [newAllocator, hf] at hp; cases hp
  · intro h
    cases initial with
    | some i => simp [newAllocator]
    | none =>
      cases hf : parseIPv4 c.dynamicRange.From with
      | some i => simp [newAllocator, hf]
      | none => simp [hf] at h

/-- Witness for C10's amended theorem at a parseable From endpoint. -/
theorem newAllocator_error_always_nil_witness :
    (newAllocator ⟨[], "g", "d", ⟨"0.0.0.60", "0.0.0.61"⟩, ⟨100, 7⟩, ⟨"a", "b", "c"⟩⟩
      none).isSome = true :=
  (newAllocator_error_always_nil _ none).2 (Or.inr (by decide))

/-- Counterexample to C2 as stated: a call over a capacity-1 range whose one
lease (of another mac) has expired wraps twice; the first wrap runs no purge
(`wrapped false`), the one aggressive purge happens at the second wrap
(`wrapped true`), and the call then succeeds instead of returning
`ErrRangeExhausted` after the second wrap. -/
theorem first_wrap_purge_claim_cex :
    ((⟨⟨[], "g", "d", ⟨"0.0.0.60", "0.0.0.60"⟩, ⟨100, 7⟩, ⟨"a", "b", "c"⟩⟩, 60⟩ :
        Allocator).allocate ⟨[⟨1, 60, true, false, 5, 5⟩], [], false⟩ 10 2 false none).events =
      [.wrapped false, .wrapped true] ∧
    ((⟨⟨[], "g", "d", ⟨"0.0.0.60", "0.0.0.60"⟩, ⟨100, 7⟩, ⟨"a", "b", "c"⟩⟩, 60⟩ :
        Allocator).allocate ⟨[⟨1, 60, true, false, 5, 5⟩], [], false⟩ 10 2 false none).result =
      .ok 60 := by decide

/-- Counterexample to C5 as stated: the lease created by the sequential scan
path carries `reserved = true` (the scan's `SetLease` call passes true), not
`reserved = false`. -/
theorem scan_lease_reserved_cex :
    (((⟨⟨[], "g", "d", ⟨"0.0.0.60", "0.0.0.61"⟩, ⟨100, 7⟩, ⟨"a", "b", "c"⟩⟩, 59⟩ :
        Allocator).allocate ⟨[], [], false⟩ 10 7 false none).db.getLease 7).map
      LeaseRecord.reserved = some true ∧
    ¬ ((((⟨⟨[], "g", "d", ⟨"0.0.0.60", "0.0.0.61"⟩, ⟨100, 7⟩, ⟨"a", "b", "c"⟩⟩, 59⟩ :
        Allocator).allocate ⟨[], [], false⟩ 10 7 false none).db.getLease 7).map
      LeaseRecord.reserved = some false) := by decide

/-- Counterexample to C9 as stated: over the range 0.0.0.60 to 0.0.0.61 with
a store that reports a non-conflict durability fault for address 60, the
scan hits that fault at its first candidate yet the call does not abort with
a wrapped error — it advances and returns address 61. -/
theorem scan_fault_no_abort_cex :
    ((⟨⟨[], "g", "d", ⟨"0.0.0.60", "0.0.0.61"⟩, ⟨100, 7⟩, ⟨"a", "b", "c"⟩⟩, 59⟩ :
        Allocator).allocate ⟨[], [60], false⟩ 10 1 false none).result = .ok 61 ∧
    (⟨[], [60], false⟩ : DB).setLease 1 60 true false 110 117 = .error .storeFault := by decide

/-! ## The wrap trace of the scan loop -/

/-- Wrap events a scan can still emit from flag state (ff, cg): the first
wrap of a call records no purge, the second records the one aggressive
purge, and no further wrap event exists. -/
def wrapTail : Bool → Bool → List ScanEvent
  | false, false => [.wrapped false, .wrapped true]
  | false, true => [.wrapped false]
  | true, false => [.wrapped true]
  | true, true => []

theorem wrapTail_step (ff cg : Bool) (h : (ff && cg) = false) :
    ScanEvent.wrapped ff :: wrapTail true (cg || ff) = wrapTail ff cg := by
  cases ff <;> cases cg <;> simp_all [wrapTail]

theorem scanLoop_events_spec (first last mac le ge now : Nat) :
    ∀ (fuel lastIP : Nat) (ff cg : Bool) (db : DB) (evs : List ScanEvent),
      (∃ t u, (scanLoop first last mac le ge now fuel lastIP ff cg db evs).events =
          evs ++ t ∧ t ++ u = wrapTail ff cg) ∧
      ((scanLoop first last mac le ge now fuel lastIP ff cg db evs).result =
          .error .rangeExhausted →
        (scanLoop first last mac le ge now fuel lastIP ff cg db evs).events =
          evs ++ wrapTail ff cg) := by
  intro fuel
  induction fuel with
  | zero =>
    intro lastIP ff cg db evs
    refine ⟨⟨[], wrapTail ff cg, by simp [scanLoop], rfl⟩, fun h => ?_⟩
    simp [scanLoop] at h
  | succ n ih =>
    intro lastIP ff cg db evs
    by_cases hin : ipInRange first last (ipAdd lastIP 1) = true
    · cases hs : db.setLease mac (ipAdd lastIP 1) true false le ge with
      | ok db2 =>
        refine ⟨⟨[], wrapTail ff cg, by simp [scanLoop, hin, hs], rfl⟩, fun h => ?_⟩
        simp [scanLoop, hin, hs] at h
      | error e =>
        have hred : scanLoop first last mac le ge now (n + 1) lastIP ff cg db evs =
            scanLoop first last mac le ge now n (ipAdd lastIP 1) ff cg db evs := by
          simp [scanLoop, hin, hs]
        rw [hred]
        exact ih (ipAdd lastIP 1) ff cg db evs
    · cases ff with
      | true =>
        cases cg with
        | true =>
          refine ⟨⟨[], [], by simp [scanLoop, hin], by simp [wrapTail]⟩, fun h => ?_⟩
          simp [scanLoop, hin, wrapTail]
        | false =>
          cases hpu : db.purgeLeases true now with
          | error e =>
            refine ⟨⟨[], wrapTail true false, by simp [scanLoop, hin, hpu], rfl⟩,
              fun h => ?_⟩
            simp [scanLoop, hin, hpu] at h
          | ok p =>
            obtain ⟨n0, db1⟩ := p
            cases hs : db1.setLease mac first true false le ge with
            | ok db2 =>
              have hred : scanLoop first last mac le ge now (n + 1) lastIP true false
                  db evs = ⟨.ok first, first, db2, evs ++ [ScanEvent.wrapped true]⟩ := by
                simp [scanLoop, hin, hpu, hs]
              rw [hred]
              refine ⟨⟨[ScanEvent.wrapped true], [], rfl, by simp [wrapTail]⟩,
                fun h => ?_⟩
              simp at h
            | error e =>
              have hred : scanLoop first last mac le ge now (n + 1) lastIP true false
                  db evs = scanLoop first last mac le ge now n first true true db1
                    (evs ++ [ScanEvent.wrapped true]) := by
                simp [scanLoop, hin, hpu, hs]
              rw [hred]
              obtain ⟨⟨t2, u2, hev, htu⟩, hexh⟩ :=
                ih first true true db1 (evs ++ [ScanEvent.wrapped true])
              obtain ⟨ht2, hu2⟩ : t2 = [] ∧ u2 = [] := by
                simpa [wrapTail] using htu
              subst ht2; subst hu2
              constructor
              · refine ⟨[ScanEvent.wrapped true], [], by simpa using hev, by simp [wrapTail]⟩
              · intro h
                have := hexh h
                rw [this]
                simp [wrapTail]
      | false =>
        cases hs : db.setLease mac first true false le ge with
        | ok db2 =>
          have hred : scanLoop first last mac le ge now (n + 1) lastIP false cg db evs =
              ⟨.ok first, first, db2, evs ++ [ScanEvent.wrapped false]⟩ := by
            simp [scanLoop, hin, hs]
          rw [hred]
          have hstep2 : ScanEvent.wrapped false :: wrapTail true cg =
              wrapTail false cg := by
            simpa using wrapTail_step false cg (by simp)
          refine ⟨⟨[ScanEvent.wrapped false], wrapTail true cg, rfl, hstep2⟩,
            fun h => ?_⟩
          simp at h
        | error e =>
          have hred : scanLoop first last mac le ge now (n + 1) lastIP false cg db evs =
              scanLoop first last mac le ge now n first true cg db
                (evs ++ [ScanEvent.wrapped false]) := by
            simp [scanLoop, hin, hs]
          rw [hred]
          obtain ⟨⟨t2, u2, hev, htu⟩, hexh⟩ :=
            ih first true cg db (evs ++ [ScanEvent.wrapped false])
          have hstep2 : ScanEvent.wrapped false :: wrapTail true cg =
              wrapTail false cg := by
            simpa using wrapTail_step false cg (by simp)
          constructor
          · refine ⟨ScanEvent.wrapped false :: t2, u2, by simpa using hev, ?_⟩
            rw [← hstep2, ← htu]
            simp
          · intro h
            have := hexh h
            rw [this, ← hstep2]
            simp

/-- Helper: a list that extends to a fixed two-element list is one of its
three initial segments. -/
theorem append_eq_two {α : Type} {t u : List α} {a b : α} (h : t ++ u = [a, b]) :
    t = [] ∨ t = [a] ∨ t = [a, b] := by
  cases t with
  | nil => exact Or.inl rfl
  | cons x t1 =>
    cases t1 with
    | nil =>
      simp only [List.cons_append, List.nil_append, List.cons.injEq] at h
      exact Or.inr (Or.inl (by rw [h.1]))
    | cons y t2 =>
      simp only [List.cons_append, List.cons.injEq] at h
      obtain ⟨hx, hy, ht⟩ := h
      have h2 : t2 = [] := by
        cases t2 with
        | nil => rfl
        | cons z t3 => simp at ht
      subst hx; subst hy; subst h2
      exact Or.inr (Or.inr rfl)

/-- C2 amended: in every `Allocate` call, the wrap trace of the scan loop is
an initial segment of [no-purge wrap, purging wrap] — the first wrap runs no
purge, the (at most one) aggressive purge runs at the second wrap — and a
call returns `ErrRangeExhausted` only after both wraps, i.e. on the third
time the candidate runs past the range's upper bound, with no further purge
or retry. -/
theorem wrap_purge_order (a : Allocator) (db : DB) (now mac : Nat) (renew : Bool)
    (preferred : Option Nat) :
    ((a.allocate db now mac renew preferred).events = [] ∨
     (a.allocate db now mac renew preferred).events = [.wrapped false] ∨
     (a.allocate db now mac renew preferred).events =
       [.wrapped false, .wrapped true]) ∧
    ((a.allocate db now mac renew preferred).result = .error .rangeExhausted →
      (a.allocate db now mac renew preferred).events =
        [.wrapped false, .wrapped true]) := by
  cases hg : db.getLease mac with
  | some l =>
    by_cases hc : ((renew && (decide (l.leaseEnd < now) || decide (l.leaseGraceEnd < now)))
        || l.persistent) = true
    · cases hr : db.renewLease mac (now + a.config.lease.duration)
          (now + a.config.lease.duration + a.config.lease.gracePeriod) with
      | ok p =>
        obtain ⟨l2, db2⟩ := p
        refine ⟨Or.inl ?_, fun h => absurd h ?_⟩ <;> simp [Allocator.allocate, hg, hc, hr]
      | error e =>
        refine ⟨Or.inl ?_, fun h => absurd h ?_⟩ <;> simp [Allocator.allocate, hg, hc, hr]
    · refine ⟨Or.inl ?_, fun h => absurd h ?_⟩ <;> simp [Allocator.allocate, hg, hc]
  | none =>
    cases hd : a.config.dynamicRange.dimensions with
    | mk f l =>
      cases f with
      | none =>
        refine ⟨Or.inl ?_, fun h => absurd h ?_⟩ <;> simp [Allocator.allocate, hg, hd]
      | some first =>
        cases l with
        | none =>
          refine ⟨Or.inl ?_, fun h => absurd h ?_⟩ <;> simp [Allocator.allocate, hg, hd]
        | some last =>
          obtain ⟨⟨t, u, hev, htu⟩, hexh⟩ := scanLoop_events_spec first last mac
            (now + a.config.lease.duration)
            (now + a.config.lease.duration + a.config.lease.gracePeriod) now
            (scanFuel first last) a.lastIP false false db []
          have hevs : (scanLoop first last mac (now + a.config.lease.duration)
              (now + a.config.lease.duration + a.config.lease.gracePeriod) now
              (scanFuel first last) a.lastIP false false db []).events = [] ∨
              (scanLoop first last mac (now + a.config.lease.duration)
                (now + a.config.lease.duration + a.config.lease.gracePeriod) now
                (scanFuel first last) a.lastIP false false db []).events =
                [.wrapped false] ∨
              (scanLoop first last mac (now + a.config.lease.duration)
                (now + a.config.lease.duration + a.config.lease.gracePeriod) now
                (scanFuel first last) a.lastIP false false db []).events =
                [.wrapped false, .wrapped true] := by
            have htu2 : t ++ u = [ScanEvent.wrapped false, ScanEvent.wrapped true] := by
              rw [htu]; rfl
            rcases append_eq_two htu2 with h | h | h <;> rw [hev, h] <;> simp
          have hexh2 : (scanLoop first last mac (now + a.config.lease.duration)
              (now + a.config.lease.duration + a.config.lease.gracePeriod) now
              (scanFuel first last) a.lastIP false false db []).result =
                .error .rangeExhausted →
              (scanLoop first last mac (now + a.config.lease.duration)
                (now + a.config.lease.duration + a.config.lease.gracePeriod) now
                (scanFuel first last) a.lastIP false false db []).events =
                [.wrapped false, .wrapped true] := fun h => by
            simpa [wrapTail] using hexh h
          cases preferred with
          | none =>
            simp only [Allocator.allocate, hg, hd]
            exact ⟨hevs, hexh2⟩
          | some p =>
            by_cases hp : ipInRange first last p = true
            · cases hs : db.setLease mac p true false (now + a.config.lease.duration)
                  (now + a.config.lease.duration + a.config.lease.gracePeriod) with
              | ok db2 =>
                refine ⟨Or.inl ?_, fun h => absurd h ?_⟩ <;>
                  simp [Allocator.allocate, hg, hd, hp, hs]
              | error e =>
                simp only [Allocator.allocate, hg, hd, hp, if_true, hs]
                exact ⟨hevs, hexh2⟩
            · have hp2 : ipInRange first last p = false := by simpa using hp
              simp only [Allocator.allocate, hg, hd, hp2, Bool.false_eq_true, if_false]
              exact ⟨hevs, hexh2⟩

/-- Witness for C2's amended theorem: a concrete exhausted call whose trace
is exactly the unpurged wrap followed by the purging wrap. -/
theorem wrap_purge_order_witness :
    ((⟨⟨[], "g", "d", ⟨"0.0.0.60", "0.0.0.60"⟩, ⟨100, 7⟩, ⟨"a", "b", "c"⟩⟩, 60⟩ :
        Allocator).allocate ⟨[⟨1, 60, true, false, 50, 50⟩], [], false⟩ 10 2 false none).events =
      [.wrapped false, .wrapped true] :=
  (wrap_purge_order _ _ 10 2 false none).2 (by decide)

/-- C9 amended: inside the scan loop a `SetLease` conflict makes the loop
advance to the next candidate and retry, and every other `SetLease` error
class is folded into exactly that same conflict-retry path instead of
aborting the call; the one mid-scan error that does abort the call with a
wrapped store error is a `PurgeLeases` failure during the second wrap's
aggressive purge (allocator.go lines 86 to 89). -/
theorem scan_error_uniform_retry :
    (∀ (first last mac le ge now fuel lastIP : Nat) (ff cg : Bool) (db : DB)
        (evs : List ScanEvent) (e : StoreErr),
      ipInRange first last (ipAdd lastIP 1) = true →
      db.setLease mac (ipAdd lastIP 1) true false le ge = .error e →
      scanLoop first last mac le ge now (fuel + 1) lastIP ff cg db evs =
        scanLoop first last mac le ge now fuel (ipAdd lastIP 1) ff cg db evs) ∧
    (∀ (first last mac le ge now fuel lastIP : Nat) (db : DB)
        (evs : List ScanEvent) (e : StoreErr),
      ipInRange first last (ipAdd lastIP 1) = false →
      db.purgeLeases true now = .error e →
      scanLoop first last mac le ge now (fuel + 1) lastIP true false db evs =
        ⟨.error (.purgeFailed e), lastIP, db, evs⟩) := by
  constructor
  · intro first last mac le ge now fuel lastIP ff cg db evs e hin hs
    simp [scanLoop, hin, hs]
  · intro first last mac le ge now fuel lastIP db evs e hin hpu
    simp [scanLoop, hin, hpu]

/-- Witness for C9's amended theorem: the loop steps over a concrete
durability fault at candidate 60 exactly as over a conflict, and a concrete
purge failure at the second wrap aborts with the wrapped error. -/
theorem scan_error_uniform_retry_witness :
    (scanLoop 60 61 1 110 117 10 10 59 false false ⟨[], [60], false⟩ [] =
      scanLoop 60 61 1 110 117 10 9 (ipAdd 59 1) false false ⟨[], [60], false⟩ []) ∧
    (scanLoop 60 60 2 110 117 10 10 60 true false ⟨[], [], true⟩ [] =
      ⟨.error (.purgeFailed .storeFault), 60, ⟨[], [], true⟩, []⟩) :=
  ⟨scan_error_uniform_retry.1 60 61 1 110 117 10 9 59 false false ⟨[], [60], false⟩ []
      .storeFault (by decide) (by decide),
    scan_error_uniform_retry.2 60 60 2 110 117 10 9 60 ⟨[], [], true⟩ [] .storeFault
      (by decide) (by decide)⟩

/-! ## Successful inserts and the scan path's lease flags -/

theorem setLease_ok_shape {db db2 : DB} {mac ip le ge : Nat} {r p : Bool}
    (h : db.setLease mac ip r p le ge = .ok db2) :
    db2 = { db with leases := db.leases.filter (fun l => l.mac != mac) ++
        [⟨mac, ip, r, p, le, ge⟩] } ∧
    db.leases.any (fun l => l.ip == ip && l.mac != mac) = false ∧
    db.brokenIPs.contains ip = false := by
  unfold DB.setLease at h
  split at h
  next hb => cases h
  next hb =>
    split at h
    next hc => cases h
    next hc =>
      cases h
      exact ⟨rfl, by simpa using hc, by simpa using hb⟩

theorem getLease_after_setLease {db db2 : DB} {mac ip le ge : Nat} {r p : Bool}
    (h : db.setLease mac ip r p le ge = .ok db2) :
    db2.getLease mac = some ⟨mac, ip, r, p, le, ge⟩ := by
  obtain ⟨hdb, -, -⟩ := setLease_ok_shape h
  subst hdb
  unfold DB.getLease
  rw [find?_append_left_none]
  · simp [List.find?]
  · intro x hx
    have hxm := (List.mem_filter.1 hx).2
    simp only [bne_iff_ne, ne_eq] at hxm
    simpa using hxm

theorem scanLoop_ok_lease (first last mac le ge now : Nat) :
    ∀ (fuel lastIP : Nat) (ff cg : Bool) (db : DB) (evs : List ScanEvent) (ip : Nat),
      (scanLoop first last mac le ge now fuel lastIP ff cg db evs).result = .ok ip →
      (scanLoop first last mac le ge now fuel lastIP ff cg db evs).db.getLease mac =
        some ⟨mac, ip, true, false, le, ge⟩ := by
  intro fuel
  induction fuel with
  | zero =>
    intro lastIP ff cg db evs ip h
    simp [scanLoop] at h
  | succ n ih =>
    intro lastIP ff cg db evs ip h
    by_cases hin : ipInRange first last (ipAdd lastIP 1) = true
    · cases hs : db.setLease mac (ipAdd lastIP 1) true false le ge with
      | ok db2 =>
        have hip : ipAdd lastIP 1 = ip := by
          have := h
          simp [scanLoop, hin, hs] at this
          exact this
        subst hip
        simpa [scanLoop, hin, hs] using getLease_after_setLease hs
      | error e =>
        rw [show scanLoop first last mac le ge now (n + 1) lastIP ff cg db evs =
            scanLoop first last mac le ge now n (ipAdd lastIP 1) ff cg db evs by
          simp [scanLoop, hin, hs]] at h ⊢
        exact ih (ipAdd lastIP 1) ff cg db evs ip h
    · cases ff with
      | true =>
        cases cg with
        | true =>
          rw [show scanLoop first last mac le ge now (n + 1) lastIP true true db evs =
              ⟨.error .rangeExhausted, lastIP, db, evs⟩ by simp [scanLoop, hin]] at h
          cases h
        | false =>
          cases hpu : db.purgeLeases true now with
          | error e =>
            rw [show scanLoop first last mac le ge now (n + 1) lastIP true false db evs =
                ⟨.error (.purgeFailed e), lastIP, db, evs⟩ by
              simp [scanLoop, hin, hpu]] at h
            cases h
          | ok p =>
            obtain ⟨n0, db1⟩ := p
            cases hs : db1.setLease mac first true false le ge with
            | ok db2 =>
              have hip : first = ip := by
                have := h
                simp [scanLoop, hin, hpu, hs] at this
                exact this
              subst hip
              simpa [scanLoop, hin, hpu, hs] using getLease_after_setLease hs
            | error e =>
              rw [show scanLoop first last mac le ge now (n + 1) lastIP true false db evs =
                  scanLoop first last mac le ge now n first true true db1
                    (evs ++ [ScanEvent.wrapped true]) by
                simp [scanLoop, hin, hpu, hs]] at h ⊢
              exact ih first true true _ _ ip h
      | false =>
        cases hs : db.setLease mac first true false le ge with
        | ok db2 =>
          have hip : first = ip := by
            have := h
            simp [scanLoop, hin, hs] at this
            exact this
          subst hip
          simpa [scanLoop, hin, hs] using getLease_after_setLease hs
        | error e =>
          rw [show scanLoop first last mac le ge now (n + 1) lastIP false cg db evs =
              scanLoop first last mac le ge now n first true cg db
                (evs ++ [ScanEvent.wrapped false]) by simp [scanLoop, hin, hs]] at h ⊢
          exact ih first true cg _ _ ip h

/-- C5 amended: every lease created by the sequential scan path of
`Allocate` is inserted with reserved set to true (the scan's `SetLease`
passes true, exactly as the preferred-IP path does) and persistent set to
false, with the fresh expiry timestamps of the call. -/
theorem scan_lease_flags (a : Allocator) (db : DB) (now mac : Nat) (renew : Bool)
    (ip first last : Nat)
    (hnone : db.getLease mac = none)
    (hdim : a.config.dynamicRange.dimensions = (some first, some last))
    (hok : (a.allocate db now mac renew none).result = .ok ip) :
    (a.allocate db now mac renew none).db.getLease mac =
      some ⟨mac, ip, true, false, now + a.config.lease.duration,
        now + a.config.lease.duration + a.config.lease.gracePeriod⟩ := by
  simp only [Allocator.allocate, hnone, hdim] at hok ⊢
  exact scanLoop_ok_lease first last mac (now + a.config.lease.duration)
    (now + a.config.lease.duration + a.config.lease.gracePeriod) now
    (scanFuel first last) a.lastIP false false db [] ip hok

/-- Witness for C5's amended theorem at a concrete scan allocation. -/
theorem scan_lease_flags_witness :
    ((⟨⟨[], "g", "d", ⟨"0.0.0.60", "0.0.0.61"⟩, ⟨100, 7⟩, ⟨"a", "b", "c"⟩⟩, 59⟩ :
        Allocator).allocate ⟨[], [], false⟩ 10 7 false none).db.getLease 7 =
      some ⟨7, 60, true, false, 110, 117⟩ :=
  scan_lease_flags _ _ 10 7 false 60 60 61 (by decide) (by decide) (by decide)

/-! ## Preservation of the unique-IP invariant -/

theorem uniqueIPs_setLease {db db2 : DB} {mac ip le ge : Nat} {r p : Bool}
    (h : db.setLease mac ip r p le ge = .ok db2) (hu : db.uniqueIPs) : db2.uniqueIPs := by
  obtain ⟨hdb, hany, -⟩ := setLease_ok_shape h
  subst hdb
  have hnoc : ∀ x ∈ db.leases, x.ip = ip → x.mac = mac := by
    intro x hx hxip
    by_contra hne
    have : db.leases.any (fun l => l.ip == ip && l.mac != mac) = true :=
      List.any_eq_true.2 ⟨x, hx, by simp [hxip, hne]⟩
    rw [this] at hany
    cases hany
  intro l1 h1 l2 h2 hip
  rcases List.mem_append.1 h1 with h1a | h1b
  · rcases List.mem_append.1 h2 with h2a | h2b
    · exact hu l1 (List.mem_filter.1 h1a).1 l2 (List.mem_filter.1 h2a).1 hip
    · have hl2 : l2 = ⟨mac, ip, r, p, le, ge⟩ := by simpa using h2b
      subst hl2
      exact hnoc l1 (List.mem_filter.1 h1a).1 (by simpa using hip)
  · have hl1 : l1 = ⟨mac, ip, r, p, le, ge⟩ := by simpa using h1b
    subst hl1
    rcases List.mem_append.1 h2 with h2a | h2b
    · exact (hnoc l2 (List.mem_filter.1 h2a).1 (by simpa using hip.symm)).symm
    · have hl2 : l2 = ⟨mac, ip, r, p, le, ge⟩ := by simpa using h2b
      subst hl2
      rfl

theorem uniqueIPs_renewLease {db db2 : DB} {mac le ge : Nat} {l2 : LeaseRecord}
    (h : db.renewLease mac le ge = .ok (l2, db2)) (hu : db.uniqueIPs) : db2.uniqueIPs := by
  unfold DB.renewLease at h
  cases hf : db.leases.find? (fun l => l.mac == mac) with
  | none => rw [hf] at h; cases h
  | some l0 =>
    rw [hf] at h
    cases h
    have hl0 : l0 ∈ db.leases := List.mem_of_find?_eq_some hf
    intro x1 hx1 x2 hx2 hip
    simp only [List.mem_map] at hx1 hx2
    obtain ⟨y1, hy1, he1⟩ := hx1
    obtain ⟨y2, hy2, he2⟩ := hx2
    have key : ∀ (y : LeaseRecord), y ∈ db.leases → ∀ x,
        (if y.mac == mac then
          ({ l0 with leaseEnd := le, leaseGraceEnd := ge } : LeaseRecord) else y) = x →
        ∃ z ∈ db.leases, x.ip = z.ip ∧ x.mac = z.mac := by
      intro y hy x hx
      by_cases hc : (y.mac == mac) = true
      · rw [if_pos hc] at hx
        exact ⟨l0, hl0, by rw [← hx], by rw [← hx]⟩
      · rw [if_neg hc] at hx
        exact ⟨y, hy, by rw [← hx], by rw [← hx]⟩
    obtain ⟨z1, hz1, hip1, hmac1⟩ := key y1 hy1 x1 he1
    obtain ⟨z2, hz2, hip2, hmac2⟩ := key y2 hy2 x2 he2
    rw [hmac1, hmac2]
    exact hu z1 hz1 z2 hz2 (by rw [← hip1, ← hip2, hip])

theorem uniqueIPs_purge {db db2 : DB} {agg : Bool} {now n : Nat}
    (h : db.purgeLeases agg now = .ok (n, db2)) (hu : db.uniqueIPs) :
    db2.uniqueIPs := by
  unfold DB.purgeLeases at h
  split at h
  next => cases h
  next =>
    cases h
    intro l1 h1 l2 h2 hip
    exact hu l1 (List.mem_filter.1 h1).1 l2 (List.mem_filter.1 h2).1 hip

theorem uniqueIPs_scanLoop (first last mac le ge now : Nat) :
    ∀ (fuel lastIP : Nat) (ff cg : Bool) (db : DB) (evs : List ScanEvent),
      db.uniqueIPs →
      (scanLoop first last mac le ge now fuel lastIP ff cg db evs).db.uniqueIPs := by
  intro fuel
  induction fuel with
  | zero =>
    intro lastIP ff cg db evs hu
    simpa [scanLoop] using hu
  | succ n ih =>
    intro lastIP ff cg db evs hu
    by_cases hin : ipInRange first last (ipAdd lastIP 1) = true
    · cases hs : db.setLease mac (ipAdd lastIP 1) true false le ge with
      | ok db2 => simpa [scanLoop, hin, hs] using uniqueIPs_setLease hs hu
      | error e =>
        rw [show scanLoop first last mac le ge now (n + 1) lastIP ff cg db evs =
            scanLoop first last mac le ge now n (ipAdd lastIP 1) ff cg db evs by
          simp [scanLoop, hin, hs]]
        exact ih (ipAdd lastIP 1) ff cg db evs hu
    · cases ff with
      | true =>
        cases cg with
        | true =>
          rw [show scanLoop first last mac le ge now (n + 1) lastIP true true db evs =
              ⟨.error .rangeExhausted, lastIP, db, evs⟩ by simp [scanLoop, hin]]
          exact hu
        | false =>
          cases hpu : db.purgeLeases true now with
          | error e =>
            rw [show scanLoop first last mac le ge now (n + 1) lastIP true false db evs =
                ⟨.error (.purgeFailed e), lastIP, db, evs⟩ by simp [scanLoop, hin, hpu]]
            exact hu
          | ok p =>
            obtain ⟨n0, db1⟩ := p
            have hu1 : db1.uniqueIPs := uniqueIPs_purge hpu hu
            cases hs : db1.setLease mac first true false le ge with
            | ok db2 => simpa [scanLoop, hin, hpu, hs] using uniqueIPs_setLease hs hu1
            | error e =>
              rw [show scanLoop first last mac le ge now (n + 1) lastIP true false db evs =
                  scanLoop first last mac le ge now n first true true db1
                    (evs ++ [ScanEvent.wrapped true]) by simp [scanLoop, hin, hpu, hs]]
              exact ih first true true _ _ hu1
      | false =>
        cases hs : db.setLease mac first true false le ge with
        | ok db2 => simpa [scanLoop, hin, hs] using uniqueIPs_setLease hs hu
        | error e =>
          rw [show scanLoop first last mac le ge now (n + 1) lastIP false cg db evs =
              scanLoop first last mac le ge now n first true cg db
                (evs ++ [ScanEvent.wrapped false]) by simp [scanLoop, hin, hs]]
          exact ih first true cg _ _ hu

theorem uniqueIPs_allocate (a : Allocator) (db : DB) (now mac : Nat) (renew : Bool)
    (preferred : Option Nat) (hu : db.uniqueIPs) :
    (a.allocate db now mac renew preferred).db.uniqueIPs := by
  cases hg : db.getLease mac with
  | some l =>
    by_cases hc : ((renew && (decide (l.leaseEnd < now) || decide (l.leaseGraceEnd < now)))
        || l.persistent) = true
    · cases hr : db.renewLease mac (now + a.config.lease.duration)
          (now + a.config.lease.duration + a.config.lease.gracePeriod) with
      | ok p =>
        obtain ⟨l2, db2⟩ := p
        simpa [Allocator.allocate, hg, hc, hr] using uniqueIPs_renewLease hr hu
      | error e => simpa [Allocator.allocate, hg, hc, hr] using hu
    · simpa [Allocator.allocate, hg, hc] using hu
  | none =>
    cases hd : a.config.dynamicRange.dimensions with
    | mk f l =>
      cases f with
      | none => simpa [Allocator.allocate, hg, hd] using hu
      | some first =>
        cases l with
        | none => simpa [Allocator.allocate, hg, hd] using hu
        | some last =>
          have hscan := uniqueIPs_scanLoop first last mac (now + a.config.lease.duration)
            (now + a.config.lease.duration + a.config.lease.gracePeriod) now
            (scanFuel first last) a.lastIP false false db [] hu
          cases preferred with
          | none =>
            simp only [Allocator.allocate, hg, hd]
            exact hscan
          | some p =>
            by_cases hp : ipInRange first last p = true
            · cases hs : db.setLease mac p true false (now + a.config.lease.duration)
                  (now + a.config.lease.duration + a.config.lease.gracePeriod) with
              | ok db2 =>
                simpa [Allocator.allocate, hg, hd, hp, hs] using uniqueIPs_setLease hs hu
              | error e =>
                simp only [Allocator.allocate, hg, hd, hp, if_true, hs]
                exact hscan
            · have hp2 : ipInRange first last p = false := by simpa using hp
              simp only [Allocator.allocate, hg, hd, hp2, Bool.false_eq_true, if_false]
              exact hscan

theorem uniqueIPs_runAllocs :
    ∀ (calls : List CallSpec) (a : Allocator) (db : DB),
      db.uniqueIPs → (runAllocs a db calls).db.uniqueIPs := by
  intro calls
  induction calls with
  | nil =>
    intro a db hu
    simpa [runAllocs] using hu
  | cons cl cls ih =>
    intro a db hu
    simp only [runAllocs]
    exact ih _ _ (uniqueIPs_allocate a db cl.now cl.mac cl.renew cl.preferred hu)

/-! ## Fresh-store sequential allocation -/

theorem freshRunAux (c : Config) (first last now : Nat)
    (hdim : c.dynamicRange.dimensions = (some first, some last))
    (hmod : last < ipMod) :
    ∀ (rest : List Nat) (k lip : Nat) (rows : List LeaseRecord),
      rest.Nodup →
      (∀ r ∈ rows, r.ip < first + k) →
      (∀ r ∈ rows, r.mac ∉ rest) →
      lip + 1 = first + k →
      first + k + rest.length ≤ last + 1 →
      (runAllocs ⟨c, lip⟩ ⟨rows, [], false⟩
          (rest.map (fun m => ⟨now, m, false, none⟩))).results =
        (List.range rest.length).map (fun i => Except.ok (first + k + i)) := by
  intro rest
  induction rest with
  | nil =>
    intro k lip rows _ _ _ _ _
    simp [runAllocs]
  | cons m rest2 ih =>
    intro k lip rows hnd hips hmacs hlip hcap
    have hget : (⟨rows, [], false⟩ : DB).getLease m = none := by
      unfold DB.getLease
      apply List.find?_eq_none.2
      intro x hx
      have hxm : x.mac ≠ m := fun he => (hmacs x hx) (he ▸ List.mem_cons_self m rest2)
      simpa using hxm
    have hklast : first + k ≤ last := by
      simp only [List.length_cons] at hcap
      omega
    have hc1 : ipAdd lip 1 = first + k := by
      rw [ipAdd_one (by omega)]
      omega
    have hin : ipInRange first last (first + k) = true := by
      simp only [ipInRange, Bool.and_eq_true, decide_eq_true_eq]
      omega
    have hset : (⟨rows, [], false⟩ : DB).setLease m (first + k) true false
        (now + c.lease.duration) (now + c.lease.duration + c.lease.gracePeriod) =
        .ok ⟨rows ++ [⟨m, first + k, true, false, now + c.lease.duration,
          now + c.lease.duration + c.lease.gracePeriod⟩], [], false⟩ := by
      unfold DB.setLease
      have hany : rows.any (fun l => l.ip == first + k && l.mac != m) = false := by
        rw [List.any_eq_false]
        intro x hx
        have := hips x hx
        simp only [Bool.and_eq_true, beq_iff_eq, bne_iff_ne, ne_eq, not_and]
        omega
      have hfil : rows.filter (fun l => l.mac != m) = rows := by
        rw [List.filter_eq_self]
        intro x hx
        have hxm : x.mac ≠ m := fun he => (hmacs x hx) (he ▸ List.mem_cons_self m rest2)
        simpa using hxm
      simp [hany, hfil]
    have hstep : (⟨c, lip⟩ : Allocator).allocate ⟨rows, [], false⟩ now m false none =
        ⟨.ok (first + k), ⟨c, first + k⟩,
          ⟨rows ++ [⟨m, first + k, true, false, now + c.lease.duration,
            now + c.lease.duration + c.lease.gracePeriod⟩], [], false⟩, []⟩ := by
      simp only [Allocator.allocate, hget, hdim, scanFuel_succ, scanLoop, hc1, hin,
        if_true, hset]
    simp only [List.map_cons, runAllocs, hstep]
    have hihargs := ih (k + 1) (first + k)
      (rows ++ [⟨m, first + k, true, false, now + c.lease.duration,
        now + c.lease.duration + c.lease.gracePeriod⟩])
      (List.Nodup.of_cons hnd)
      (by
        intro r hr
        rcases List.mem_append.1 hr with h | h
        · have := hips r h; omega
        · have : r = ⟨m, first + k, true, false, now + c.lease.duration,
              now + c.lease.duration + c.lease.gracePeriod⟩ := by simpa using h
          subst this
          simp only []
          omega)
      (by
        intro r hr
        rcases List.mem_append.1 hr with h | h
        · exact fun hmem => (hmacs r h) (List.mem_cons_of_mem m hmem)
        · have : r = ⟨m, first + k, true, false, now + c.lease.duration,
              now + c.lease.duration + c.lease.gracePeriod⟩ := by simpa using h
          subst this
          simpa using (List.nodup_cons.1 hnd).1)
      (by omega)
      (by
        simp only [List.length_cons] at hcap
        omega)
    rw [hihargs]
    simp only [List.length_cons]
    rw [List.range_succ_eq_map, List.map_cons, List.map_map]
    have htail : List.map (fun i => Except.ok (first + (k + 1) + i))
        (List.range rest2.length) =
        List.map ((fun i => (Except.ok (first + k + i) : Except AllocErr Nat)) ∘ Nat.succ)
          (List.range rest2.length) := by
      apply List.map_congr_left
      intro i hi
      simp only [Function.comp_apply, Except.ok.injEq]
      omega
    rw [htail]
    simp

/-- C1: first, the Store-enforced invariant — starting from any store in
which no two non-purged leases of distinct macs share an IP, any sequence
of `Allocate` calls preserves that invariant, so two clients never
simultaneously hold the same address; second, on a fresh store and fresh
allocator over a range of capacity at least N, N `Allocate` calls for N
distinct MACs (no preferred IPs) all succeed with consecutive addresses
from the lower bound, which are pairwise distinct. -/
theorem allocate_unique_ips_and_distinct :
    (∀ (a : Allocator) (db : DB) (calls : List CallSpec),
      db.uniqueIPs → (runAllocs a db calls).db.uniqueIPs) ∧
    (∀ (c : Config) (first last now : Nat) (macs : List Nat),
      c.dynamicRange.dimensions = (some first, some last) →
      1 ≤ first → first ≤ last → last < ipMod →
      macs.Nodup → first + macs.length ≤ last + 1 →
      (runAllocs ⟨c, ipAdd first (-1)⟩ ⟨[], [], false⟩
          (macs.map (fun m => ⟨now, m, false, none⟩))).results =
        (List.range macs.length).map (fun i => Except.ok (first + i)) ∧
      (runAllocs ⟨c, ipAdd first (-1)⟩ ⟨[], [], false⟩
          (macs.map (fun m => ⟨now, m, false, none⟩))).results.Nodup) := by
  constructor
  · intro a db calls hu
    exact uniqueIPs_runAllocs calls a db hu
  · intro c first last now macs hdim h1 h2 hmod hnd hcap
    have hres := freshRunAux c first last now hdim hmod macs 0 (ipAdd first (-1)) []
      hnd (by simp) (by simp)
      (by rw [ipAdd_neg_one h1 (by omega)]; omega)
      (by simpa using hcap)
    have hres2 : (runAllocs ⟨c, ipAdd first (-1)⟩ ⟨[], [], false⟩
        (macs.map (fun m => ⟨now, m, false, none⟩))).results =
        (List.range macs.length).map (fun i => Except.ok (first + i)) := by
      rw [hres]
      simp
    refine ⟨hres2, ?_⟩
    rw [hres2]
    refine (List.nodup_range macs.length).map ?_
    intro i j hij
    simp only [Except.ok.injEq] at hij
    omega

/-- Witness for C1: a concrete two-call run keeps the store invariant and
hands out the two consecutive distinct addresses of the range. -/
theorem allocate_unique_ips_and_distinct_witness :
    (runAllocs ⟨⟨[], "g", "d", ⟨"0.0.0.60", "0.0.0.61"⟩, ⟨100, 7⟩, ⟨"a", "b", "c"⟩⟩,
        ipAdd 60 (-1)⟩ ⟨[], [], false⟩
      [⟨10, 1, false, none⟩, ⟨10, 2, false, none⟩]).db.uniqueIPs ∧
    (runAllocs ⟨⟨[], "g", "d", ⟨"0.0.0.60", "0.0.0.61"⟩, ⟨100, 7⟩, ⟨"a", "b", "c"⟩⟩,
        ipAdd 60 (-1)⟩ ⟨[], [], false⟩
      ([1, 2].map (fun m => ⟨10, m, false, none⟩))).results =
      [Except.ok 60, Except.ok 61] := by
  constructor
  · exact allocate_unique_ips_and_distinct.1 _ _ _ (by decide)
  · have h := (allocate_unique_ips_and_distinct.2
      ⟨[], "g", "d", ⟨"0.0.0.60", "0.0.0.61"⟩, ⟨100, 7⟩, ⟨"a", "b", "c"⟩⟩
      60 61 10 [1, 2] (by decide) (by decide) (by decide) (by decide)
      (by decide) (by decide)).1
    rw [h]
    decide

end Ldhcpd
